import Mathlib

/-!
Verification development for the chroniax-ml heart-rate calibration pipeline.

Shallow embedding of the core components of the repository:
* `ScanwatchUtils` — the time-weighted overlap resampler and the interval
  context annotator (src/util/scanwatch_utils.py);
* `BinnedMedianFitter`, `ModelFitter`, `ModelPredictor` — the monotone
  calibration engine (src/service/ml/);
* `MetricsCalculator`, `HeartRateZoneClassifier` — zone-stratified metrics;
* `ContextualModelTrainer` — the per-context training / prediction policy.

Numeric values (bpm, coverage seconds, float arithmetic) are embedded as
rationals; timestamps are embedded as whole seconds (naturals for the
resampler, integers for interval arithmetic).  Fallible operations are
embedded as `Except String`.
-/

namespace ChroniaxML

/-- Decidable equality on embedded fallible results, used to evaluate the
embedding at concrete inputs. -/
instance {ε α : Type} [DecidableEq ε] [DecidableEq α] : DecidableEq (Except ε α) := fun a b =>
  match a, b with
  | .ok x, .ok y => decidable_of_iff (x = y) (by simp)
  | .error e, .error f => decidable_of_iff (e = f) (by simp)
  | .ok _, .error _ => isFalse (by simp)
  | .error _, .ok _ => isFalse (by simp)

/-! ## Overlap resampler (src/util/scanwatch_utils.py) -/

namespace ScanwatchUtils

/-- `_calculate_overlap_seconds`: overlap between segment `[segStart, segEnd)`
and window `[winStart, winEnd)`, i.e. `max(0, min(seg_end, win_end) -
max(seg_start, win_start))`.  Natural-number truncated subtraction realizes
the clamping at zero. -/
def overlapSeconds (segStart segEnd winStart winEnd : ℕ) : ℕ :=
  min segEnd winEnd - max segStart winStart

/-- The window walk of `_process_segment`: starting from `current`, visit
windows of width `f` while `current <= lastWindow`, accumulating into each
touched window the overlap of the segment with that window (the code only
stores strictly positive overlaps; adding zero is the same total).  This
returns the total coverage the segment contributes across all windows.
The `0 < f` conjunct makes the walk total; in the code `f` is the bin width
in seconds of a positive `Timedelta`. -/
def segmentLoop (segStart segEnd f lastWindow current : ℕ) : ℕ :=
  if h : 0 < f ∧ current ≤ lastWindow then
    (let ov := overlapSeconds segStart segEnd current (current + f)
     if 0 < ov then ov else 0) +
      segmentLoop segStart segEnd f lastWindow (current + f)
  else 0
termination_by lastWindow + 1 - current
decreasing_by omega

/-- `_process_segment` for a segment starting at `segStart` (seconds) with
the given positive duration: windows run from the bin floor of the segment
start through the bin floor of `segEnd - 1` second. -/
def segmentCoverage (segStart duration f : ℕ) : ℕ :=
  let segEnd := segStart + duration
  segmentLoop segStart segEnd f ((segEnd - 1) / f * f) (segStart / f * f)

/-! ## Interval context annotator (src/util/scanwatch_utils.py) -/

/-- One sleep row of `df_sleep`: `start_utc`, `end_utc`, `status`.
Timestamps are embedded as integer seconds. -/
structure SleepInterval where
  start_utc : ℤ
  end_utc : ℤ
  status : ℤ
deriving DecidableEq, Repr

/-- `_calculate_time_overlap`: zero when `start2 >= end1 or end2 <= start1`,
otherwise `min(end1, end2) - max(start1, start2)`. -/
def calculateTimeOverlap (start1 end1 start2 end2 : ℤ) : ℤ :=
  if end1 ≤ start2 ∨ end2 ≤ start1 then 0
  else min end1 end2 - max start1 start2

/-- The overlap of the window `[ws, we)` with a sleep interval. -/
def overlapWith (ws we : ℤ) (iv : SleepInterval) : ℤ :=
  calculateTimeOverlap ws we iv.start_utc iv.end_utc

/-- The inner loop of `_calculate_sleep_status` for one window, over the
sleep rows in order: state `(max_overlap, best_status)`, updated only on a
strict improvement `overlap > max_overlap`. -/
def sleepStatusGo (ws we : ℤ) : List SleepInterval → ℤ × ℤ → ℤ × ℤ
  | [], st => st
  | iv :: rest, st =>
      if st.1 < overlapWith ws we iv then
        sleepStatusGo ws we rest (overlapWith ws we iv, iv.status)
      else sleepStatusGo ws we rest st

/-- `_calculate_sleep_status` for one window: start from
`(max_overlap, best_status) = (0, 0)`; an empty sleep table yields 0. -/
def calculateSleepStatus (ws we : ℤ) (sleeps : List SleepInterval) : ℤ :=
  (sleepStatusGo ws we sleeps (0, 0)).2

/-- The maximum overlap any sleep interval has with the window (0 when the
sleep set is empty). -/
def maxOverlap (ws we : ℤ) (sleeps : List SleepInterval) : ℤ :=
  (sleeps.map (overlapWith ws we)).foldr max 0

/-- The specification rule for the annotator: the status of the interval
with the strictly greatest overlap, first-seen interval winning ties at the
maximum, and 0 when no interval has positive overlap. -/
def specSleepStatus (ws we : ℤ) (sleeps : List SleepInterval) : ℤ :=
  if maxOverlap ws we sleeps ≤ 0 then 0
  else
    match sleeps.find? (fun iv => decide (overlapWith ws we iv = maxOverlap ws we sleeps)) with
    | some iv => iv.status
    | none => 0

/-- Folding `max` over the overlaps starting from seed `m`. -/
def runningMax (ws we : ℤ) (sleeps : List SleepInterval) (m : ℤ) : ℤ :=
  sleeps.foldr (fun iv acc => max (overlapWith ws we iv) acc) m


/-! ## Resampler output assembly (src/util/scanwatch_utils.py) -/

/-- Accumulated state of one touched window in the `window_data` mapping:
a weighted_sum and a coverage field keyed by the window start. -/
structure WindowAccum where
  window_utc : ℕ
  weighted_sum : ℚ
  coverage : ℚ
deriving DecidableEq, Repr

/-- One output row of the resampler.  `scan_bpm = none` embeds the `np.nan`
a zero-coverage window would produce. -/
structure ResampledPoint where
  window_utc : ℕ
  scan_bpm : Option ℚ
  scan_coverage_s : ℚ
deriving DecidableEq, Repr

/-- The row built for one window in `_build_result_dataframe`:
`avg_value = weighted_sum / coverage if coverage > 0 else nan`. -/
def rowOfAccum (a : WindowAccum) : ResampledPoint :=
  ⟨a.window_utc, if 0 < a.coverage then some (a.weighted_sum / a.coverage) else none, a.coverage⟩

/-- Ordering on output rows used by the sort on window_utc. -/
def windowLE (p q : ResampledPoint) : Prop := p.window_utc ≤ q.window_utc

instance : DecidableRel windowLE := fun p q => Nat.decLe p.window_utc q.window_utc

instance : IsTotal ResampledPoint windowLE := ⟨fun p q => Nat.le_total p.window_utc q.window_utc⟩

instance : IsTrans ResampledPoint windowLE := ⟨fun _ _ _ => Nat.le_trans⟩

/-- `_apply_coverage_filter`: keep rows whose coverage reaches
`min(min_coverage_s, freq_seconds)` (both integers in the code). -/
def applyCoverageFilter (minCoverageS freqSeconds : ℤ) (rows : List ResampledPoint) :
    List ResampledPoint :=
  rows.filter fun p => decide (((min minCoverageS freqSeconds : ℤ) : ℚ) ≤ p.scan_coverage_s)

/-- `_build_result_dataframe`: one row per accumulated window, sorted by
`window_utc` ascending, then coverage-filtered. -/
def buildResultDataframe (windowData : List WindowAccum) (freqSeconds minCoverageS : ℤ) :
    List ResampledPoint :=
  applyCoverageFilter minCoverageS freqSeconds
    (List.insertionSort windowLE (windowData.map rowOfAccum))

end ScanwatchUtils

/-! ## Model metadata (src/dto/model_meta.py) -/

/-- The portable model representation: kind tag, context tag, knot table and
clip bounds. -/
structure ModelMeta where
  kind : String
  context : String
  x_knots : List ℚ
  y_knots : List ℚ
  clip_lo : ℚ
  clip_hi : ℚ
deriving DecidableEq, Repr

instance : Inhabited ModelMeta := ⟨⟨"", "", [], [], 0, 0⟩⟩

/-- Modelled from the spec: the `ModelKind` enum (dto/enums/model_kind.py is
not part of the provided sources).  The spec and the `ModelMeta` docstring
name the two kinds `isotonic` and `pchip`; only their distinctness and
consistent use by fitter and predictor matter below. -/
def MODEL_KIND_ISOTONIC : String := "isotonic"

/-- Modelled from the spec: the piecewise-monotone kind tag, see
`MODEL_KIND_ISOTONIC`. -/
def MODEL_KIND_PCHIP : String := "pchip"

/-! ## Heart-rate zone classifier (src/service/ml/heart_rate_classifier.py,
src/dto/enums/hr_zones.py) -/

/-- The `HeartRateZone` enum. -/
inductive HeartRateZone where
  | VERY_LOW
  | LOW
  | MODERATE
  | HIGH
deriving DecidableEq, Repr

/-- The `.value` string of each enum member. -/
def HeartRateZone.value : HeartRateZone → String
  | .VERY_LOW => "<60"
  | .LOW => "60-90"
  | .MODERATE => "90-120"
  | .HIGH => ">120"

/-- `HeartRateZoneClassifier.classify`. -/
def classify (heart_rate : ℚ) : String :=
  if heart_rate < 60 then HeartRateZone.VERY_LOW.value
  else if heart_rate < 90 then HeartRateZone.LOW.value
  else if heart_rate < 120 then HeartRateZone.MODERATE.value
  else HeartRateZone.HIGH.value

/-! ## Metrics calculator (src/service/ml/metrics_calculator.py) -/

/-- The columns of one record entering `calculate_metrics`: the raw scan
value, the reference value and the prediction column (`y_hat`). -/
structure MetricsInput where
  scan_bpm : ℚ
  t10_bpm : ℚ
  y_hat : ℚ
deriving DecidableEq, Repr

/-- One aggregated output row of `calculate_metrics`. -/
structure MetricsRow where
  zone : String
  n : ℕ
  MAE : ℚ
  bias : ℚ
deriving DecidableEq, Repr

/-- pandas `groupby` emits the observed group keys in ascending order; on
the four zone label strings the ascending lexicographic order is this list,
so the observed keys are exactly this list restricted to non-empty groups. -/
def zoneKeysSorted : List String := ["60-90", "90-120", "<60", ">120"]

/-- Arithmetic mean (pandas `mean`). -/
def meanQ (l : List ℚ) : ℚ := l.sum / l.length

/-- `MetricsCalculator.calculate_metrics`: per-row `abs_err` and `bias`
against the reference, grouped by the zone of the raw `scan_bpm`, sizes and
means per observed zone. -/
def calculateMetrics (records : List MetricsInput) : List MetricsRow :=
  zoneKeysSorted.filterMap fun z =>
    let grp := records.filter fun r => decide (classify r.scan_bpm = z)
    if grp.length = 0 then none
    else
      some ⟨z, grp.length, meanQ (grp.map fun r => |r.t10_bpm - r.y_hat|),
        meanQ (grp.map fun r => r.t10_bpm - r.y_hat)⟩

/-! ## Binned median fitter (src/service/ml/binned_median_fitter.py) -/

/-- `np.digitize(v, bins)` for monotone non-decreasing `bins` equals
a right-sided searchsorted, the number of edges `<= v`. -/
def digitize (v : ℚ) (edges : List ℚ) : ℕ :=
  (edges.filter fun e => decide (e ≤ v)).length

/-- The bin index the fitter uses: `np.digitize(x, bins) - 1` (computed in
ℤ because the value below all edges gets index `-1`). -/
def digitizeIdx (v : ℚ) (edges : List ℚ) : ℤ :=
  (digitize v edges : ℤ) - 1

/-- `np.median`: middle element of the sorted values, or the average of the
two middle elements for even length. -/
def medianQ (l : List ℚ) : ℚ :=
  let s := List.insertionSort (· ≤ ·) l
  if l.length % 2 = 1 then s.getD (l.length / 2) 0
  else (s.getD (l.length / 2 - 1) 0 + s.getD (l.length / 2) 0) / 2

/-- `BinnedMedianFitter.fit` over (x, y) pairs: for each of the
`len(bins) - 1` bins, the pairs whose digitize index equals the bin index;
empty bins are dropped, non-empty ones contribute (median x, median y). -/
def binnedMedianFit (pairs : List (ℚ × ℚ)) (edges : List ℚ) : List (ℚ × ℚ) :=
  (List.range (edges.length - 1)).filterMap fun (binIdx : ℕ) =>
    let grp := pairs.filter fun p => decide (digitizeIdx p.1 edges = (binIdx : ℤ))
    if grp.length = 0 then none
    else some (medianQ (grp.map Prod.fst), medianQ (grp.map Prod.snd))

/-! ## Model fitter (src/service/ml/model_fitter.py) -/

def DEFAULT_CLIP_LO : ℚ := 35

def DEFAULT_CLIP_HI : ℚ := 220

def DEFAULT_NUM_BINS : ℕ := 15

def MIN_POINTS_FOR_PCHIP : ℕ := 3

/-- Comparison on pairs by first component, the key of `np.argsort(x)`. -/
def leFst (p q : ℚ × ℚ) : Prop := p.1 ≤ q.1

instance : DecidableRel leFst := fun p q => inferInstanceAs (Decidable (p.1 ≤ q.1))

instance : IsTotal (ℚ × ℚ) leFst := ⟨fun p q => le_total p.1 q.1⟩

instance : IsTrans (ℚ × ℚ) leFst := ⟨fun _ _ _ => le_trans⟩

/-- Group a list of (x, y) pairs sorted by x into runs of equal x, recording
for each run the x value, the sum of its ys and its length.  This is
the sklearn `_make_unique` collapse of duplicate x values (it feeds PAVA the
weighted average `sum / count` with weight `count`). -/
def groupPairs : List (ℚ × ℚ) → List (ℚ × ℚ × ℕ)
  | [] => []
  | (x0, y0) :: rest =>
    match groupPairs rest with
    | [] => [(x0, y0, 1)]
    | (x1, s, c) :: gs =>
        if x0 = x1 then (x1, s + y0, c + 1) :: gs
        else (x0, y0, 1) :: (x1, s, c) :: gs

/-- One pooled block of the pool-adjacent-violators solver: total y sum,
total sample weight, and the number of distinct-x groups pooled into it. -/
structure PavaBlock where
  ysum : ℚ
  weight : ℚ
  groups : ℕ
deriving DecidableEq, Repr

/-- The fitted value of a pooled block. -/
def PavaBlock.mean (b : PavaBlock) : ℚ := b.ysum / b.weight

instance : IsTrans PavaBlock (fun a c => a.mean ≤ c.mean) := ⟨fun _ _ _ => le_trans⟩

/-- Push one block onto the PAVA stack (head = most recent block), merging
while the mean of the new block strictly violates the non-decreasing order. -/
def pavaPush : List PavaBlock → PavaBlock → List PavaBlock
  | [], b => [b]
  | c :: st, b =>
      if b.mean < c.mean then
        pavaPush st ⟨c.ysum + b.ysum, c.weight + b.weight, c.groups + b.groups⟩
      else b :: c :: st

/-- Run PAVA over the per-group (y sum, weight) inputs, left to right. -/
def pavaStack (pts : List (ℚ × ℚ)) : List PavaBlock :=
  pts.foldl (fun st p => pavaPush st ⟨p.1, p.2, 1⟩) []

/-- The fitted value per distinct-x group: each pooled block repeats its
mean for every group it absorbed, in input order. -/
def pavaFit (pts : List (ℚ × ℚ)) : List ℚ :=
  (pavaStack pts).reverse.flatMap fun b => List.replicate b.groups b.mean

/-- `ModelFitter.fit_isotonic`: sort by x, isotonic regression
(sklearn collapses duplicate x values to their weighted mean and runs PAVA;
the fitted value at the first occurrence of each distinct x is the pooled
value of its group), knots = distinct sorted x values with their fitted ys.
The error case embeds the sklearn minimum-one-sample input validation (and
its consistent-length check), the "insufficient data" condition. -/
def fitIsotonic (x y : List ℚ) (context : String) (clipLo clipHi : ℚ) :
    Except String ModelMeta :=
  if x.length = 0 ∨ y.length ≠ x.length then
    .error "insufficient data: isotonic regression requires at least 1 sample"
  else
    let groups := groupPairs (List.insertionSort leFst (x.zip y))
    .ok ⟨MODEL_KIND_ISOTONIC, context, groups.map fun g => g.1,
      pavaFit (groups.map fun g => (g.2.1, (g.2.2 : ℚ))), clipLo, clipHi⟩

/-- `np.linspace(a, b, numBins + 1)`: the `numBins + 1` equally spaced edges
`a + (b - a) * i / numBins`. -/
def linspaceQ (a b : ℚ) (numBins : ℕ) : List ℚ :=
  (List.range (numBins + 1)).map fun (i : ℕ) => a + (b - a) * i / numBins

/-- `np.nanmin` over rationals (no NaN values exist in the embedding);
an empty input raises, the "insufficient data" condition of the pchip path. -/
def nanMinQ : List ℚ → Except String ℚ
  | [] => .error "insufficient data: zero-size array to reduction operation"
  | v :: rest => .ok (rest.foldl min v)

/-- `np.nanmax` over rationals; see `nanMinQ`. -/
def nanMaxQ : List ℚ → Except String ℚ
  | [] => .error "insufficient data: zero-size array to reduction operation"
  | v :: rest => .ok (rest.foldl max v)

/-- `np.unique(binned_x, return_index=True)` applied to the binned knots:
keep the first occurrence of each distinct x, in ascending x order. -/
def uniqueFirstByFst (ps : List (ℚ × ℚ)) : List (ℚ × ℚ) :=
  List.insertionSort leFst
    (ps.foldl (fun acc p => if acc.any fun q => decide (q.1 = p.1) then acc else acc ++ [p]) [])

/-- `ModelFitter.fit_pchip_from_binned`: equal-width bins spanning
`[nanmin x, nanmax x]`, binned medians, dedup by x; fall back to the
isotonic path when fewer than `MIN_POINTS_FOR_PCHIP` knots remain. -/
def fitPchipFromBinned (x y : List ℚ) (context : String) (clipLo clipHi : ℚ)
    (numBins : ℕ) : Except String ModelMeta :=
  match nanMinQ x, nanMaxQ x with
  | .error e, _ => .error e
  | .ok _, .error e => .error e
  | .ok xmin, .ok xmax =>
    let edges := linspaceQ xmin xmax numBins
    let uniq := uniqueFirstByFst (binnedMedianFit (x.zip y) edges)
    if uniq.length < MIN_POINTS_FOR_PCHIP then fitIsotonic x y context clipLo clipHi
    else .ok ⟨MODEL_KIND_PCHIP, context, uniq.map Prod.fst, uniq.map Prod.snd, clipLo, clipHi⟩

/-! ## Model predictor (src/service/ml/model_predictor.py) -/

/-- `np.interp` walk over the knots: constant before the first knot, linear
between bracketing knots, constant after the last knot. -/
def npInterpGo (x : ℚ) : ℚ × ℚ → List (ℚ × ℚ) → ℚ
  | (_, y0), [] => y0
  | (x0, y0), (x1, y1) :: rest =>
      if x ≤ x0 then y0
      else if x ≤ x1 then y0 + (y1 - y0) * (x - x0) / (x1 - x0)
      else npInterpGo x (x1, y1) rest

/-- `np.interp(x, x_knots, y_knots)` (scalar). -/
def npInterp (x : ℚ) (knots : List (ℚ × ℚ)) : ℚ :=
  match knots with
  | [] => 0
  | k :: rest => npInterpGo x k rest

/-- `np.sign`. -/
def signQ (q : ℚ) : ℚ := if q < 0 then -1 else if q = 0 then 0 else 1

/-- scipy `PchipInterpolator._edge_case`: the shape-limited one-sided
three-point derivative estimate at an endpoint. -/
def pchipEdgeCase (h0 h1 m0 m1 : ℚ) : ℚ :=
  let d := ((2 * h0 + h1) * m0 - h0 * m1) / (h0 + h1)
  if signQ d ≠ signQ m0 then 0
  else if signQ m0 ≠ signQ m1 ∧ 3 * |m0| < |d| then 3 * m0
  else d

/-- scipy PCHIP interior derivative: 0 at a local extremum or flat slope,
otherwise the Fritsch-Carlson weighted harmonic mean of the two slopes. -/
def pchipInteriorD (hkm1 mkm1 hk mk : ℚ) : ℚ :=
  if signQ mkm1 ≠ signQ mk ∨ mkm1 = 0 ∨ mk = 0 then 0
  else
    let w1 := 2 * hk + hkm1
    let w2 := hk + 2 * hkm1
    (w1 + w2) / (w1 / mkm1 + w2 / mk)

/-- Interval widths and slopes `(h_k, m_k)` between consecutive knots. -/
def knotSlopes : List (ℚ × ℚ) → List (ℚ × ℚ)
  | (x0, y0) :: (x1, y1) :: rest => (x1 - x0, (y1 - y0) / (x1 - x0)) :: knotSlopes ((x1, y1) :: rest)
  | _ => []

/-- Interior derivatives at the junction of each pair of consecutive
intervals. -/
def interiorDerivs : List (ℚ × ℚ) → List ℚ
  | (h0, m0) :: (h1, m1) :: rest => pchipInteriorD h0 m0 h1 m1 :: interiorDerivs ((h1, m1) :: rest)
  | _ => []

/-- scipy `PchipInterpolator._find_derivatives`: for two knots the single
slope at both ends, otherwise edge-case estimates at the two ends and
Fritsch-Carlson interior derivatives.  (scipy rejects fewer than two knots;
fitted pchip models always carry at least `MIN_POINTS_FOR_PCHIP` knots, so
the single-knot row is unreachable from the fitter.) -/
def pchipDerivs (knots : List (ℚ × ℚ)) : List ℚ :=
  match knotSlopes knots with
  | [] => [0]
  | [(_, m0)] => [m0, m0]
  | (h0, m0) :: (h1, m1) :: rest =>
      let hm := (h0, m0) :: (h1, m1) :: rest
      let dLast :=
        match hm.reverse with
        | (hl, ml) :: (hl2, ml2) :: _ => pchipEdgeCase hl hl2 ml ml2
        | _ => 0
      pchipEdgeCase h0 h1 m0 m1 :: (interiorDerivs hm ++ [dLast])

/-- Cubic Hermite segment value on `[x0, x1]` with end derivatives. -/
def hermiteSeg (x0 y0 d0 x1 y1 d1 x : ℚ) : ℚ :=
  let h := x1 - x0
  let t := (x - x0) / h
  y0 * (2 * t ^ 3 - 3 * t ^ 2 + 1) + d0 * h * (t ^ 3 - 2 * t ^ 2 + t)
    + y1 * (3 * t ^ 2 - 2 * t ^ 3) + d1 * h * (t ^ 3 - t ^ 2)

/-- Locate the segment of the (clipped) evaluation point and evaluate its
Hermite cubic. -/
def pchipEvalGo (x : ℚ) : ℚ × ℚ × ℚ → List (ℚ × ℚ × ℚ) → ℚ
  | (_, y0, _), [] => y0
  | (x0, y0, d0), (x1, y1, d1) :: rest =>
      if x ≤ x1 then hermiteSeg x0 y0 d0 x1 y1 d1 x
      else pchipEvalGo x (x1, y1, d1) rest

/-- scipy `PchipInterpolator(x_knots, y_knots)(x)` for x inside the knot
domain (the predictor clips before evaluating). -/
def pchipEval (knots : List (ℚ × ℚ)) (x : ℚ) : ℚ :=
  match List.zipWith (fun p d => (p.1, p.2, d)) knots (pchipDerivs knots) with
  | [] => 0
  | k :: rest => pchipEvalGo x k rest

/-- `ModelPredictor.apply_model` (scalar): clip the input to the knot
domain, then dispatch on the model kind; pchip output is clipped to
`[clip_lo, clip_hi]`.  The empty-knot error embeds the `IndexError` of
`meta.x_knots[0]`; fitted models always have at least one knot. -/
def applyModel (meta : ModelMeta) (x : ℚ) : Except String ℚ :=
  match meta.x_knots with
  | [] => .error "index out of range"
  | x0 :: rest =>
    let xClipped := min (max x x0) (rest.getLastD x0)
    if meta.kind = MODEL_KIND_ISOTONIC then
      .ok (npInterp xClipped (meta.x_knots.zip meta.y_knots))
    else if meta.kind = MODEL_KIND_PCHIP then
      .ok (min (max (pchipEval (meta.x_knots.zip meta.y_knots) xClipped) meta.clip_lo) meta.clip_hi)
    else .error ("Unknown model kind: " ++ meta.kind)

/-- `apply_model` over an array of inputs. -/
def applyModelList (meta : ModelMeta) : List ℚ → Except String (List ℚ)
  | [] => .ok []
  | x :: xs =>
    match applyModel meta x, applyModelList meta xs with
    | .ok v, .ok vs => .ok (v :: vs)
    | .error e, _ => .error e
    | .ok _, .error e => .error e

/-! ## Contextual model trainer (src/service/ml/contextual_model_trainer.py) -/

/-- One paired minute-level record as the trainer consumes it. -/
structure PairRecord where
  window_utc : ℕ
  scan_bpm : ℚ
  t10_bpm : ℚ
  sleep_status : ℤ
  is_sport : Bool
deriving DecidableEq, Repr

def MIN_SAMPLES_PER_CONTEXT : ℕ := 30

/-- `_split_by_context`: rest = records with `sleep_status > 0`; active =
records with `is_sport` or `sleep_status == 0` (not disjoint by design). -/
def splitByContext (pairs : List PairRecord) : List PairRecord × List PairRecord :=
  (pairs.filter fun p => decide (0 < p.sleep_status),
   pairs.filter fun p => p.is_sport || decide (p.sleep_status = 0))

/-- `_train_context_model`: below the minimum sample count no model is
produced; otherwise fit according to the configured kind (unknown kinds
raise). -/
def trainContextModel (modelKind : String) (contextData : List PairRecord)
    (contextName : String) : Except String (Option ModelMeta) :=
  if contextData.length < MIN_SAMPLES_PER_CONTEXT then .ok none
  else
    let x := contextData.map fun p => p.scan_bpm
    let y := contextData.map fun p => p.t10_bpm
    if modelKind = MODEL_KIND_PCHIP then
      (fitPchipFromBinned x y contextName DEFAULT_CLIP_LO DEFAULT_CLIP_HI DEFAULT_NUM_BINS).map some
    else if modelKind = MODEL_KIND_ISOTONIC then
      (fitIsotonic x y contextName DEFAULT_CLIP_LO DEFAULT_CLIP_HI).map some
    else .error ("Unknown model kind: " ++ modelKind)

/-- `predict_for_row` inside `_apply_contextual_predictions`: the rest
model when the `sleep_status` of the record is truthy and positive and a rest
model exists; else the active model if present; else the rest model if
present; else the "no suitable model" error. -/
def predictForRow (restModel activeModel : Option ModelMeta) (sleep_status : ℤ)
    (scan_bpm : ℚ) : Except String ℚ :=
  if restModel.isSome ∧ sleep_status ≠ 0 ∧ 0 < sleep_status then
    applyModel (restModel.getD default) scan_bpm
  else if activeModel.isSome then
    applyModel (activeModel.getD default) scan_bpm
  else if restModel.isSome then
    applyModel (restModel.getD default) scan_bpm
  else .error "No suitable model available for prediction"

/-- The `y_hat` column produced by applying `predict_for_row` to each
record. -/
def rowPredictions (restModel activeModel : Option ModelMeta) :
    List PairRecord → Except String (List ℚ)
  | [] => .ok []
  | p :: ps =>
    match predictForRow restModel activeModel p.sleep_status p.scan_bpm,
        rowPredictions restModel activeModel ps with
    | .ok v, .ok vs => .ok (v :: vs)
    | .error e, _ => .error e
    | .ok _, .error e => .error e

/-- `_apply_global_fallback`: fit a pchip-from-binned model on the full
pair set (the configured model kind is not consulted) and predict with it. -/
def applyGlobalFallback (pairs : List PairRecord) : Except String (ModelMeta × List ℚ) :=
  match fitPchipFromBinned (pairs.map fun p => p.scan_bpm) (pairs.map fun p => p.t10_bpm)
      "global" DEFAULT_CLIP_LO DEFAULT_CLIP_HI DEFAULT_NUM_BINS with
  | .error e => .error e
  | .ok m =>
    match applyModelList m (pairs.map fun p => p.scan_bpm) with
    | .error e => .error e
    | .ok preds => .ok (m, preds)

/-- `_apply_contextual_predictions`: with no context model at all, fall back
to the global model; otherwise predict per row. -/
def applyContextualPredictions (restModel activeModel : Option ModelMeta)
    (pairs : List PairRecord) : Except String (List ℚ) :=
  if restModel.isNone ∧ activeModel.isNone then
    (applyGlobalFallback pairs).map fun mp => mp.2
  else rowPredictions restModel activeModel pairs

/-- The prediction phase of `train_and_apply`: train the rest and active
context models, then produce the `y_hat` column (metrics aggregation and
export are omitted; they do not feed back into the predictions). -/
def trainAndApplyCore (modelKind : String) (pairs : List PairRecord) :
    Except String (List ℚ) :=
  match trainContextModel modelKind (splitByContext pairs).1 "rest" with
  | .error e => .error e
  | .ok restModel =>
    match trainContextModel modelKind (splitByContext pairs).2 "active" with
    | .error e => .error e
    | .ok activeModel => applyContextualPredictions restModel activeModel pairs

end ChroniaxML

namespace ChroniaxML

namespace ScanwatchUtils

/-- The `if 0 < ov` guard the code uses before accumulating is the identity
on the contributed total. -/
lemma segmentLoop_unfold (segStart segEnd f lastWindow current : ℕ)
    (hf : 0 < f) (hle : current ≤ lastWindow) :
    segmentLoop segStart segEnd f lastWindow current =
      overlapSeconds segStart segEnd current (current + f) +
        segmentLoop segStart segEnd f lastWindow (current + f) := by
  rw [segmentLoop, dif_pos ⟨hf, hle⟩]
  have : (let ov := overlapSeconds segStart segEnd current (current + f)
      if 0 < ov then ov else 0) = overlapSeconds segStart segEnd current (current + f) := by
    simp only []
    split <;> omega
  rw [this]

lemma segmentLoop_stop (segStart segEnd f lastWindow current : ℕ)
    (h : ¬ (0 < f ∧ current ≤ lastWindow)) :
    segmentLoop segStart segEnd f lastWindow current = 0 := by
  rw [segmentLoop, dif_neg h]

/-- Telescoping invariant of the window walk: when the last window is
reachable from `current` in `k` steps of width `f` and lies strictly before
`segEnd`, the total accumulated overlap is
`min segEnd (lastWindow + f) - max segStart current`. -/
lemma segmentLoop_total (segStart segEnd f : ℕ) (hf : 0 < f) :
    ∀ (k current lastWindow : ℕ), lastWindow = current + k * f → lastWindow < segEnd →
      segmentLoop segStart segEnd f lastWindow current =
        min segEnd (lastWindow + f) - max segStart current := by
  intro k
  induction k with
  | zero =>
    intro current lastWindow hreach hlt
    have hcur : current = lastWindow := by omega
    subst hcur
    rw [segmentLoop_unfold _ _ _ _ _ hf le_rfl,
      segmentLoop_stop _ _ _ _ _ (by omega)]
    simp only [overlapSeconds]
    omega
  | succ k ih =>
    intro current lastWindow hreach hlt
    have hstep : current + f ≤ lastWindow := by
      have : 0 < (k + 1) * f := by positivity
      have hkf : k * f + f = (k + 1) * f := by ring
      omega
    rw [segmentLoop_unfold _ _ _ _ _ hf (by omega)]
    rw [ih (current + f) lastWindow (by rw [hreach]; ring) hlt]
    simp only [overlapSeconds]
    omega

/-- C3: conservation of mass.  For every segment with a positive integer
duration and every alignment of the segment start relative to the bin grid
of positive width `f`, the total overlap seconds the segment contributes to
coverage across all bins it touches equals the segment duration. -/
theorem segmentCoverage_eq (segStart duration f : ℕ)
    (hd : 0 < duration) (hf : 0 < f) :
    segmentCoverage segStart duration f = duration := by
  unfold segmentCoverage
  set segEnd := segStart + duration with hsegEnd
  set w0 := segStart / f * f with hw0
  set wl := (segEnd - 1) / f * f with hwl
  have hq1 : segStart / f ≤ (segEnd - 1) / f := by
    apply Nat.div_le_div_right
    omega
  have hreach : wl = w0 + ((segEnd - 1) / f - segStart / f) * f := by
    rw [hw0, hwl]
    have : (segStart / f + ((segEnd - 1) / f - segStart / f)) = (segEnd - 1) / f := by omega
    calc (segEnd - 1) / f * f
        = (segStart / f + ((segEnd - 1) / f - segStart / f)) * f := by rw [this]
      _ = segStart / f * f + ((segEnd - 1) / f - segStart / f) * f := by ring
  have hwl_le : wl ≤ segEnd - 1 := by
    rw [hwl]; exact Nat.div_mul_le_self _ _
  have hlt : wl < segEnd := by omega
  rw [segmentLoop_total segStart segEnd f hf _ w0 wl hreach hlt]
  have hw0_le : w0 ≤ segStart := by
    rw [hw0]; exact Nat.div_mul_le_self _ _
  have hcover : segEnd ≤ wl + f := by
    have hmod := Nat.div_add_mod (segEnd - 1) f
    have hmlt : (segEnd - 1) % f < f := Nat.mod_lt _ hf
    have : f * ((segEnd - 1) / f) = wl := by rw [hwl]; ring
    omega
  omega

lemma le_runningMax (ws we : ℤ) (l : List SleepInterval) (m : ℤ) :
    m ≤ runningMax ws we l m := by
  induction l with
  | nil => exact le_rfl
  | cons iv rest ih => exact le_trans ih (le_max_right _ _)

lemma runningMax_shift (ws we : ℤ) (l : List SleepInterval) {m m' : ℤ}
    (h : m' ≤ m) : runningMax ws we l m = max m (runningMax ws we l m') := by
  induction l with
  | nil => simp [runningMax, max_eq_left h]
  | cons iv rest ih =>
    simp only [runningMax, List.foldr_cons] at ih ⊢
    rw [ih]
    omega

lemma runningMax_attained (ws we : ℤ) (l : List SleepInterval) (m : ℤ) :
    runningMax ws we l m = m ∨
      ∃ iv ∈ l, overlapWith ws we iv = runningMax ws we l m := by
  induction l with
  | nil => exact Or.inl rfl
  | cons iv rest ih =>
    simp only [runningMax, List.foldr_cons] at ih ⊢
    rcases le_or_lt (overlapWith ws we iv) (rest.foldr (fun a acc => max (overlapWith ws we a) acc) m) with h | h
    · rw [max_eq_right h]
      rcases ih with h' | ⟨a, ha, ha'⟩
      · exact Or.inl h'
      · exact Or.inr ⟨a, List.mem_cons_of_mem _ ha, ha'⟩
    · rw [max_eq_left h.le]
      exact Or.inr ⟨iv, List.mem_cons_self _ _, rfl⟩

lemma find?_of_gt (ws we : ℤ) (l : List SleepInterval) {m : ℤ}
    (h : m < runningMax ws we l m) :
    ∃ a, l.find? (fun iv => decide (overlapWith ws we iv = runningMax ws we l m)) = some a := by
  rcases runningMax_attained ws we l m with h' | ⟨iv, hmem, hov⟩
  · omega
  · rcases hfind : l.find? (fun iv => decide (overlapWith ws we iv = runningMax ws we l m)) with _ | a
    · exfalso
      have := List.find?_eq_none.mp hfind iv hmem
      simp [hov] at this
    · exact ⟨a, rfl⟩

/-- Characterization of the annotator fold: starting from accumulator
`(m, b)`, the final status is `b` when no overlap beats `m`, and otherwise
the status of the first interval attaining the overall maximum. -/
lemma sleepStatusGo_spec (ws we : ℤ) :
    ∀ (l : List SleepInterval) (m b : ℤ),
      (sleepStatusGo ws we l (m, b)).2 =
        if runningMax ws we l m ≤ m then b
        else
          match l.find? (fun iv => decide (overlapWith ws we iv = runningMax ws we l m)) with
          | some iv => iv.status
          | none => b := by
  intro l
  induction l with
  | nil =>
    intro m b
    simp [sleepStatusGo, runningMax]
  | cons iv rest ih =>
    intro m b
    have hMcons : runningMax ws we (iv :: rest) m =
        max (overlapWith ws we iv) (runningMax ws we rest m) := rfl
    by_cases hlt : m < overlapWith ws we iv
    · rw [show sleepStatusGo ws we (iv :: rest) (m, b) =
          sleepStatusGo ws we rest (overlapWith ws we iv, iv.status) by
        simp [sleepStatusGo, hlt]]
      rw [ih]
      have hshift : runningMax ws we rest (overlapWith ws we iv) =
          runningMax ws we (iv :: rest) m := by
        rw [runningMax_shift ws we rest hlt.le, hMcons]
      have hM_gt : m < runningMax ws we (iv :: rest) m :=
        lt_of_lt_of_le hlt (hMcons ▸ le_max_left _ _)
      rw [if_neg (not_le.mpr hM_gt)]
      by_cases hstop : runningMax ws we rest (overlapWith ws we iv) ≤ overlapWith ws we iv
      · rw [if_pos hstop]
        have hMval : runningMax ws we (iv :: rest) m = overlapWith ws we iv := by
          rw [← hshift]
          exact le_antisymm hstop (le_runningMax ws we rest _)
        rw [List.find?_cons_of_pos _ (by simp [hMval])]
      · rw [if_neg hstop]
        have hlt2 : overlapWith ws we iv < runningMax ws we (iv :: rest) m :=
          hshift ▸ not_le.mp hstop
        rw [List.find?_cons_of_neg _ (by simp [ne_of_lt hlt2])]
        obtain ⟨a, ha⟩ := find?_of_gt ws we rest (not_le.mp hstop)
        have ha' := ha
        rw [hshift] at ha'
        rw [ha, ha']
    · rw [show sleepStatusGo ws we (iv :: rest) (m, b) = sleepStatusGo ws we rest (m, b) by
        simp [sleepStatusGo, hlt]]
      rw [ih]
      have hcollapse : runningMax ws we (iv :: rest) m = runningMax ws we rest m := by
        rw [hMcons]
        exact max_eq_right (le_trans (not_lt.mp hlt) (le_runningMax ws we rest m))
      rw [hcollapse]
      by_cases hstop : runningMax ws we rest m ≤ m
      · rw [if_pos hstop, if_pos hstop]
      · rw [if_neg hstop, if_neg hstop]
        have hivnot : overlapWith ws we iv ≠ runningMax ws we rest m :=
          ne_of_lt (lt_of_le_of_lt (not_lt.mp hlt) (not_le.mp hstop))
        rw [List.find?_cons_of_neg _ (by simp [hivnot])]

/-- The annotator computes exactly the first-at-maximum-overlap rule. -/
lemma calculateSleepStatus_eq_spec (ws we : ℤ) (sleeps : List SleepInterval) :
    calculateSleepStatus ws we sleeps = specSleepStatus ws we sleeps := by
  have hfold : maxOverlap ws we sleeps = runningMax ws we sleeps 0 := by
    simp [maxOverlap, runningMax, List.foldr_map]
  unfold calculateSleepStatus specSleepStatus
  rw [sleepStatusGo_spec ws we sleeps 0 0, hfold]

/-- Witness for C3 at a concrete misaligned segment: 125 seconds starting
37 seconds past the minute, on a 60-second grid. -/
theorem segmentCoverage_eq_witness : segmentCoverage 37 125 60 = 125 :=
  segmentCoverage_eq 37 125 60 (by decide) (by decide)

/-- C5: for every annotated bin, `sleep_status` is the status of the sleep
interval with the strictly greatest overlap, ties at the maximum keep the
first-seen interval, and zero overlap with every interval (or an empty
sleep set) yields status 0; in particular a bin overlapped 5 s by a first
interval and 10 s by a second receives the status of the second. -/
theorem sleep_status_largest_overlap :
    (∀ (ws we : ℤ) (sleeps : List SleepInterval),
      calculateSleepStatus ws we sleeps = specSleepStatus ws we sleeps) ∧
    calculateSleepStatus 0 60 [⟨-10, 5, 3⟩, ⟨50, 70, 4⟩] = 4 := by
  exact ⟨calculateSleepStatus_eq_spec, by decide⟩


/-- C7: a resampled point appears in the resampler output iff it is among
the built per-window rows and its accumulated coverage is at least
`min(min_coverage_s, freq_seconds)`; the retained points are ordered by
`window_utc` ascending. -/
theorem resampler_retention_and_order (wd : List WindowAccum) (mcs fs : ℤ) :
    (∀ p, p ∈ buildResultDataframe wd fs mcs ↔
      (p ∈ wd.map rowOfAccum ∧ ((min mcs fs : ℤ) : ℚ) ≤ p.scan_coverage_s)) ∧
    List.Sorted windowLE (buildResultDataframe wd fs mcs) := by
  constructor
  · intro p
    simp [buildResultDataframe, applyCoverageFilter, List.mem_filter]
  · exact (List.sorted_insertionSort windowLE (wd.map rowOfAccum)).filter _

end ScanwatchUtils

/-- C8: fitting with no valid knot at all (empty input) fails with an
insufficient-data condition, on the isotonic path (the sklearn minimum
sample validation) and on the piecewise-monotone path (the empty reduction
in `np.nanmin`). -/
theorem fit_empty_insufficient_data :
    fitIsotonic [] [] "global" DEFAULT_CLIP_LO DEFAULT_CLIP_HI =
      .error "insufficient data: isotonic regression requires at least 1 sample" ∧
    fitPchipFromBinned [] [] "global" DEFAULT_CLIP_LO DEFAULT_CLIP_HI DEFAULT_NUM_BINS =
      .error "insufficient data: zero-size array to reduction operation" :=
  ⟨rfl, rfl⟩

/-- C2: per-record model selection follows the strict priority chain: the
rest model when `sleep_status > 0` and a rest model exists; otherwise the
active model when it exists; otherwise the rest model when it exists;
otherwise the no-suitable-model error.  In particular a record with
`sleep_status = 2` and only an active model is served by the active model. -/
theorem predict_for_row_priority (restM activeM : Option ModelMeta) (s : ℤ) (x : ℚ) :
    (∀ r, restM = some r → 0 < s →
      predictForRow restM activeM s x = applyModel r x) ∧
    ((restM = none ∨ s ≤ 0) → ∀ a, activeM = some a →
      predictForRow restM activeM s x = applyModel a x) ∧
    (s ≤ 0 → activeM = none → ∀ r, restM = some r →
      predictForRow restM activeM s x = applyModel r x) ∧
    (restM = none → activeM = none →
      predictForRow restM activeM s x =
        Except.error "No suitable model available for prediction") := by
  refine ⟨?_, ?_, ?_, ?_⟩
  · intro r hr hs
    subst hr
    simp [predictForRow, hs, hs.ne']
  · rintro (hr | hs) a ha <;> subst ha
    · subst hr
      simp [predictForRow]
    · simp [predictForRow, not_lt.mpr hs]
  · intro hs hact r hr
    subst hr hact
    simp [predictForRow, not_lt.mpr hs]
  · intro hr ha
    subst hr ha
    simp [predictForRow]

/-- Witness for C2: a record with `sleep_status = 2` and only an active
model is predicted with the active model, not rejected. -/
theorem predict_for_row_priority_witness :
    predictForRow none (some ⟨"isotonic", "global", [50, 60], [55, 66], 35, 220⟩) 2 52 =
      applyModel ⟨"isotonic", "global", [50, 60], [55, 66], 35, 220⟩ 52 ∧
    applyModel (⟨"isotonic", "global", [50, 60], [55, 66], 35, 220⟩ : ModelMeta) 52 =
      .ok (286 / 5) :=
  ⟨(predict_for_row_priority none (some _) 2 52).2.1 (Or.inl rfl) _ rfl, by
    with_unfolding_all decide⟩

/-- C10: when neither context reaches the minimum sample count, the trainer
falls back to a single global model fitted by `fit_pchip_from_binned` on
the full pair set, for every configured model kind (an isotonic selection
is never consulted on this path). -/
theorem global_fallback_always_pchip (modelKind : String) (pairs : List PairRecord)
    (h1 : (splitByContext pairs).1.length < MIN_SAMPLES_PER_CONTEXT)
    (h2 : (splitByContext pairs).2.length < MIN_SAMPLES_PER_CONTEXT) :
    trainAndApplyCore modelKind pairs =
      (match fitPchipFromBinned (pairs.map fun p => p.scan_bpm)
          (pairs.map fun p => p.t10_bpm) "global" DEFAULT_CLIP_LO DEFAULT_CLIP_HI
          DEFAULT_NUM_BINS with
       | .error e => .error e
       | .ok m => applyModelList m (pairs.map fun p => p.scan_bpm)) := by
  have e1 : trainContextModel modelKind (splitByContext pairs).1 "rest" = .ok none := by
    unfold trainContextModel
    rw [if_pos h1]
  have e2 : trainContextModel modelKind (splitByContext pairs).2 "active" = .ok none := by
    unfold trainContextModel
    rw [if_pos h2]
  unfold trainAndApplyCore
  rw [e1, e2]
  show applyContextualPredictions none none pairs = _
  unfold applyContextualPredictions
  rw [if_pos ⟨rfl, rfl⟩]
  unfold applyGlobalFallback
  rcases hfit : fitPchipFromBinned (pairs.map fun p => p.scan_bpm)
      (pairs.map fun p => p.t10_bpm) "global" DEFAULT_CLIP_LO DEFAULT_CLIP_HI
      DEFAULT_NUM_BINS with e | m <;> simp only [hfit]
  · rfl
  · rcases happ : applyModelList m (pairs.map fun p => p.scan_bpm) with e | preds <;>
      simp only [happ] <;> rfl

/-- Witness for C10: with no pairs at all, both contexts are below the
minimum and the kind-independent global path is taken (here it surfaces the
insufficient-data error of the empty pchip fit). -/
theorem global_fallback_always_pchip_witness :
    trainAndApplyCore "isotonic" [] =
      Except.error "insufficient data: zero-size array to reduction operation" := by
  rw [global_fallback_always_pchip "isotonic" [] (by decide) (by decide)]
  rfl

lemma foldl_min_le (v : ℚ) (l : List ℚ) : l.foldl min v ≤ v := by
  induction l generalizing v with
  | nil => exact le_rfl
  | cons a l ih => exact le_trans (ih (min v a)) (min_le_left _ _)

lemma le_foldl_max (v : ℚ) (l : List ℚ) : v ≤ l.foldl max v := by
  induction l generalizing v with
  | nil => exact le_rfl
  | cons a l ih => exact le_trans (le_max_left _ _) (ih (max v a))

lemma nanMin_le_nanMax {x : List ℚ} {a b : ℚ}
    (hmin : nanMinQ x = .ok a) (hmax : nanMaxQ x = .ok b) : a ≤ b := by
  cases x with
  | nil => simp [nanMinQ] at hmin
  | cons v l =>
    simp only [nanMinQ, nanMaxQ, Except.ok.injEq] at hmin hmax
    subst hmin hmax
    exact le_trans (foldl_min_le v l) (le_foldl_max v l)

lemma linspace_le_right {a b : ℚ} (hab : a ≤ b) {n : ℕ} (hn : 0 < n) :
    ∀ e ∈ linspaceQ a b n, e ≤ b := by
  intro e he
  rw [linspaceQ, List.mem_map] at he
  obtain ⟨i, hi, rfl⟩ := he
  rw [List.mem_range] at hi
  have hi' : (i : ℚ) ≤ (n : ℚ) := by
    have hle : i ≤ n := by omega
    exact_mod_cast hle
  have hc : (0 : ℚ) ≤ b - a := sub_nonneg.mpr hab
  have hmul : (b - a) * i ≤ (b - a) * n := mul_le_mul_of_nonneg_left hi' hc
  have hn' : (0 : ℚ) < (n : ℚ) := by exact_mod_cast hn
  have key : (b - a) * i / n ≤ b - a := by
    rw [div_le_iff₀ hn']
    calc (b - a) * i ≤ (b - a) * n := hmul
      _ = (b - a) * n := rfl
  linarith

lemma digitizeIdx_max {x : List ℚ} {a b : ℚ}
    (hmin : nanMinQ x = .ok a) (hmax : nanMaxQ x = .ok b) :
    digitizeIdx b (linspaceQ a b DEFAULT_NUM_BINS) = (DEFAULT_NUM_BINS : ℤ) := by
  have hab : a ≤ b := nanMin_le_nanMax hmin hmax
  have hfull : (linspaceQ a b DEFAULT_NUM_BINS).filter (fun e => decide (e ≤ b)) =
      linspaceQ a b DEFAULT_NUM_BINS :=
    List.filter_eq_self.mpr fun e he =>
      decide_eq_true (linspace_le_right hab (by norm_num [DEFAULT_NUM_BINS]) e he)
  have hlen : (linspaceQ a b DEFAULT_NUM_BINS).length = DEFAULT_NUM_BINS + 1 := by
    rw [linspaceQ, List.length_map, List.length_range]
  unfold digitizeIdx digitize
  rw [hfull, hlen]
  simp

/-- C9: in the piecewise-monotone fitting path, a data point whose x value
equals `max(x)` receives digitize index `num_bins` and so falls in no bin of
the loop over `range(num_bins)`: removing all such points leaves every
binned median unchanged. -/
theorem pchip_binning_excludes_max (x y : List ℚ) (a b : ℚ)
    (hmin : nanMinQ x = .ok a) (hmax : nanMaxQ x = .ok b) :
    (∀ k : ℕ, k < DEFAULT_NUM_BINS →
      digitizeIdx b (linspaceQ a b DEFAULT_NUM_BINS) ≠ (k : ℤ)) ∧
    binnedMedianFit (x.zip y) (linspaceQ a b DEFAULT_NUM_BINS) =
      binnedMedianFit ((x.zip y).filter fun p => decide (p.1 ≠ b))
        (linspaceQ a b DEFAULT_NUM_BINS) := by
  have hidx := digitizeIdx_max hmin hmax
  constructor
  · intro k hk
    rw [hidx]
    exact_mod_cast fun h => absurd h (by omega)
  · unfold binnedMedianFit
    apply List.filterMap_congr
    intro binIdx hbin
    rw [List.mem_range] at hbin
    have hlen : (linspaceQ a b DEFAULT_NUM_BINS).length - 1 = DEFAULT_NUM_BINS := by
      rw [linspaceQ, List.length_map, List.length_range]
      omega
    rw [hlen] at hbin
    have hgrp : ((x.zip y).filter fun p =>
          decide (digitizeIdx p.1 (linspaceQ a b DEFAULT_NUM_BINS) = (binIdx : ℤ))) =
        (((x.zip y).filter fun p => decide (p.1 ≠ b)).filter fun p =>
          decide (digitizeIdx p.1 (linspaceQ a b DEFAULT_NUM_BINS) = (binIdx : ℤ))) := by
      rw [List.filter_filter]
      apply List.filter_congr
      intro p _
      by_cases hpb : p.1 = b
      · have : digitizeIdx p.1 (linspaceQ a b DEFAULT_NUM_BINS) ≠ (binIdx : ℤ) := by
          rw [hpb, hidx]
          exact_mod_cast fun h => absurd h (by omega)
        simp [this]
      · simp [hpb]
    rw [hgrp]

/-- Witness for C9 at the concrete knots of the round-trip example. -/
theorem pchip_binning_excludes_max_witness :
    digitizeIdx 100 (linspaceQ 40 100 DEFAULT_NUM_BINS) ≠ ((14 : ℕ) : ℤ) ∧
    binnedMedianFit ([(40 : ℚ), 60, 80, 100].zip [(45 : ℚ), 65, 85, 105])
        (linspaceQ 40 100 DEFAULT_NUM_BINS) =
      binnedMedianFit (([(40 : ℚ), 60, 80, 100].zip [(45 : ℚ), 65, 85, 105]).filter
          fun p => decide (p.1 ≠ 100))
        (linspaceQ 40 100 DEFAULT_NUM_BINS) :=
  ⟨(pchip_binning_excludes_max [40, 60, 80, 100] [45, 65, 85, 105] 40 100
      (by with_unfolding_all decide) (by with_unfolding_all decide)).1 14 (by norm_num [DEFAULT_NUM_BINS]),
   (pchip_binning_excludes_max [40, 60, 80, 100] [45, 65, 85, 105] 40 100
      (by with_unfolding_all decide) (by with_unfolding_all decide)).2⟩

/-- C1 (failing-input evaluation): fitting a piecewise-monotone model on the
four knots x = [40, 60, 80, 100], y = [45, 65, 85, 105] and predicting at
those same x values yields [45, 65, 85, 85], not [45, 65, 85, 105]: the
point at max(x) = 100 is dropped by the binned-median digitize step, the
knot domain ends at 80, and the clipped prediction there is 85. -/
theorem pchip_roundtrip_failing_input :
    (match fitPchipFromBinned [40, 60, 80, 100] [45, 65, 85, 105] "global"
        DEFAULT_CLIP_LO DEFAULT_CLIP_HI DEFAULT_NUM_BINS with
     | .ok m => applyModelList m [40, 60, 80, 100]
     | .error e => .error e) = .ok [45, 65, 85, 85] ∧
    (85 : ℚ) ≠ 105 := by
  constructor
  · with_unfolding_all decide
  · norm_num

/-- C6: the metrics calculator groups by the zone of the input scan value
with left-closed right-open boundaries at 60, 90 and 120 bpm (open-ended
top zone), reports per observed zone the member count, the mean absolute
error of `reference - predicted` and the signed bias `reference -
predicted`, and zones with zero members do not appear. -/
theorem metrics_zone_grouping (records : List MetricsInput) :
    (∀ x : ℚ,
      (classify x = "<60" ↔ x < 60) ∧
      (classify x = "60-90" ↔ 60 ≤ x ∧ x < 90) ∧
      (classify x = "90-120" ↔ 90 ≤ x ∧ x < 120) ∧
      (classify x = ">120" ↔ 120 ≤ x)) ∧
    (∀ z : String,
      (∃ row ∈ calculateMetrics records, row.zone = z) ↔
        ∃ r ∈ records, classify r.scan_bpm = z) ∧
    (∀ row ∈ calculateMetrics records,
      row.n = (records.filter fun r => decide (classify r.scan_bpm = row.zone)).length ∧
      0 < row.n ∧
      row.MAE = meanQ ((records.filter fun r => decide (classify r.scan_bpm = row.zone)).map
        fun r => |r.t10_bpm - r.y_hat|) ∧
      row.bias = meanQ ((records.filter fun r => decide (classify r.scan_bpm = row.zone)).map
        fun r => r.t10_bpm - r.y_hat)) := by
  refine ⟨?_, ?_, ?_⟩
  · intro x
    unfold classify HeartRateZone.value
    split_ifs with h1 h2 h3 <;>
      refine ⟨?_, ?_, ?_, ?_⟩ <;> simp <;>
        first | linarith | (intro h; linarith) | (constructor <;> linarith)
  · intro z
    constructor
    · rintro ⟨row, hrow, rfl⟩
      unfold calculateMetrics at hrow
      rw [List.mem_filterMap] at hrow
      obtain ⟨zk, hzk, hf⟩ := hrow
      dsimp only [] at hf
      by_cases h0 : (records.filter fun r => decide (classify r.scan_bpm = zk)).length = 0
      · rw [if_pos h0] at hf
        exact absurd hf (by simp)
      rw [if_neg h0] at hf
      have hrowe := Option.some.inj hf
      subst hrowe
      have hne : records.filter (fun r => decide (classify r.scan_bpm = zk)) ≠ [] := by
        intro hnil
        rw [hnil] at h0
        exact h0 rfl
      obtain ⟨r, hr⟩ := List.exists_mem_of_ne_nil _ hne
      have hm := List.mem_filter.mp hr
      exact ⟨r, hm.1, of_decide_eq_true hm.2⟩
    · rintro ⟨r, hr, hcls⟩
      have hzk : z ∈ zoneKeysSorted := by
        subst hcls
        unfold classify HeartRateZone.value zoneKeysSorted
        split_ifs <;> simp
      have hmem : r ∈ records.filter fun r' => decide (classify r'.scan_bpm = z) :=
        List.mem_filter.mpr ⟨hr, decide_eq_true hcls⟩
      have hlen : ¬ (records.filter fun r' => decide (classify r'.scan_bpm = z)).length = 0 := by
        intro h0
        rw [List.length_eq_zero] at h0
        rw [h0] at hmem
        exact absurd hmem (List.not_mem_nil r)
      refine ⟨⟨z, (records.filter fun r' => decide (classify r'.scan_bpm = z)).length,
          meanQ ((records.filter fun r' => decide (classify r'.scan_bpm = z)).map
            fun r' => |r'.t10_bpm - r'.y_hat|),
          meanQ ((records.filter fun r' => decide (classify r'.scan_bpm = z)).map
            fun r' => r'.t10_bpm - r'.y_hat)⟩, ?_, rfl⟩
      unfold calculateMetrics
      rw [List.mem_filterMap]
      refine ⟨z, hzk, ?_⟩
      dsimp only []
      rw [if_neg hlen]
  · intro row hrow
    unfold calculateMetrics at hrow
    rw [List.mem_filterMap] at hrow
    obtain ⟨zk, hzk, hf⟩ := hrow
    dsimp only [] at hf
    by_cases h0 : (records.filter fun r => decide (classify r.scan_bpm = zk)).length = 0
    · rw [if_pos h0] at hf
      exact absurd hf (by simp)
    rw [if_neg h0] at hf
    have hrowe := Option.some.inj hf
    subst hrowe
    exact ⟨rfl, Nat.pos_of_ne_zero h0, rfl, rfl⟩

/-- Witness for C6 on one record in the very-low zone: the single output
row has member count 1, and the boundary characterization holds at 59. -/
theorem metrics_zone_grouping_witness :
    (⟨"<60", 1, 1, 1⟩ : MetricsRow).n =
      ([(⟨50, 52, 51⟩ : MetricsInput)].filter fun r =>
        decide (classify r.scan_bpm = (⟨"<60", 1, 1, 1⟩ : MetricsRow).zone)).length ∧
    classify 59 = "<60" :=
  ⟨((metrics_zone_grouping [⟨50, 52, 51⟩]).2.2 ⟨"<60", 1, 1, 1⟩
      (by with_unfolding_all decide)).1,
   (((metrics_zone_grouping []).1 59).1).mpr (by norm_num)⟩

lemma pavaPush_invariant : ∀ (st : List PavaBlock) (b : PavaBlock),
    (∀ a ∈ st, 0 < a.weight) →
    List.Chain' (fun a c => c.mean ≤ a.mean) st →
    0 < b.weight →
    (∀ a ∈ pavaPush st b, 0 < a.weight) ∧
    List.Chain' (fun a c => c.mean ≤ a.mean) (pavaPush st b) := by
  intro st
  induction st with
  | nil =>
    intro b _ _ hb
    refine ⟨?_, ?_⟩
    · intro a ha
      rw [pavaPush, List.mem_singleton] at ha
      subst ha
      exact hb
    · rw [pavaPush]
      exact List.chain'_singleton b
  | cons c st ih =>
    intro b hw hch hb
    by_cases hviol : b.mean < c.mean
    · rw [show pavaPush (c :: st) b =
          pavaPush st ⟨c.ysum + b.ysum, c.weight + b.weight, c.groups + b.groups⟩ by
        rw [pavaPush, if_pos hviol]]
      exact ih _ (fun a ha => hw a (List.mem_cons_of_mem _ ha)) hch.tail
        (by have := hw c (List.mem_cons_self _ _); dsimp only; linarith)
    · rw [show pavaPush (c :: st) b = b :: c :: st by rw [pavaPush, if_neg hviol]]
      refine ⟨?_, ?_⟩
      · intro a ha
        rcases List.mem_cons.mp ha with rfl | ha'
        · exact hb
        · exact hw a ha'
      · exact List.chain'_cons.mpr ⟨not_lt.mp hviol, hch⟩

lemma pavaStack_invariant (pts : List (ℚ × ℚ)) (hp : ∀ p ∈ pts, 0 < p.2) :
    (∀ a ∈ pavaStack pts, 0 < a.weight) ∧
    List.Chain' (fun a c => c.mean ≤ a.mean) (pavaStack pts) := by
  have main : ∀ (l : List (ℚ × ℚ)) (st : List PavaBlock),
      (∀ a ∈ st, 0 < a.weight) →
      List.Chain' (fun a c => c.mean ≤ a.mean) st →
      (∀ p ∈ l, 0 < p.2) →
      (∀ a ∈ l.foldl (fun st p => pavaPush st ⟨p.1, p.2, 1⟩) st, 0 < a.weight) ∧
      List.Chain' (fun a c => c.mean ≤ a.mean)
        (l.foldl (fun st p => pavaPush st ⟨p.1, p.2, 1⟩) st) := by
    intro l
    induction l with
    | nil => intro st hw hch _; exact ⟨hw, hch⟩
    | cons p l ihl =>
      intro st hw hch hp
      rw [List.foldl_cons]
      obtain ⟨hw', hch'⟩ := pavaPush_invariant st ⟨p.1, p.2, 1⟩ hw hch
        (hp p (List.mem_cons_self _ _))
      exact ihl _ hw' hch' (fun q hq => hp q (List.mem_cons_of_mem _ hq))
  exact main pts [] (by simp) List.chain'_nil hp

lemma pavaFit_sorted (pts : List (ℚ × ℚ)) (hp : ∀ p ∈ pts, 0 < p.2) :
    List.Chain' (· ≤ ·) (pavaFit pts) := by
  obtain ⟨hw, hch⟩ := pavaStack_invariant pts hp
  have hrev : List.Chain' (fun a c => a.mean ≤ c.mean) (pavaStack pts).reverse := by
    rw [List.chain'_reverse]
    exact hch
  have hpw : List.Pairwise (fun a c => a.mean ≤ c.mean) (pavaStack pts).reverse :=
    List.chain'_iff_pairwise.mp hrev
  apply List.Pairwise.chain'
  unfold pavaFit
  rw [List.pairwise_flatMap]
  refine ⟨?_, ?_⟩
  · intro a _
    rw [List.pairwise_replicate]
    exact Or.inr le_rfl
  · refine hpw.imp ?_
    intro a c hac x hx y hy
    rw [List.eq_of_mem_replicate hx, List.eq_of_mem_replicate hy]
    exact hac

lemma groupPairs_fst_mem : ∀ (l : List (ℚ × ℚ)) (g : ℚ × ℚ × ℕ),
    g ∈ groupPairs l → ∃ p ∈ l, p.1 = g.1 := by
  intro l
  induction l with
  | nil => intro g hg; simp [groupPairs] at hg
  | cons p rest ih =>
    obtain ⟨x0, y0⟩ := p
    intro g hg
    rw [groupPairs] at hg
    rcases hgr : groupPairs rest with _ | ⟨⟨x1, s, c⟩, gs⟩ <;> rw [hgr] at hg <;>
      dsimp only [] at hg
    · rw [List.mem_singleton] at hg
      subst hg
      exact ⟨(x0, y0), List.mem_cons_self _ _, rfl⟩
    · by_cases heq : x0 = x1
      · rw [if_pos heq] at hg
        rcases List.mem_cons.mp hg with rfl | hg'
        · exact ⟨(x0, y0), List.mem_cons_self _ _, heq⟩
        · obtain ⟨q, hq, hqe⟩ := ih g (hgr ▸ List.mem_cons_of_mem _ hg')
          exact ⟨q, List.mem_cons_of_mem _ hq, hqe⟩
      · rw [if_neg heq] at hg
        rcases List.mem_cons.mp hg with rfl | hg'
        · exact ⟨(x0, y0), List.mem_cons_self _ _, rfl⟩
        · obtain ⟨q, hq, hqe⟩ := ih g (hgr ▸ hg')
          exact ⟨q, List.mem_cons_of_mem _ hq, hqe⟩

lemma groupPairs_count_pos : ∀ (l : List (ℚ × ℚ)) (g : ℚ × ℚ × ℕ),
    g ∈ groupPairs l → 0 < g.2.2 := by
  intro l
  induction l with
  | nil => intro g hg; simp [groupPairs] at hg
  | cons p rest ih =>
    obtain ⟨x0, y0⟩ := p
    intro g hg
    rw [groupPairs] at hg
    rcases hgr : groupPairs rest with _ | ⟨⟨x1, s, c⟩, gs⟩ <;> rw [hgr] at hg <;>
      dsimp only [] at hg
    · rw [List.mem_singleton] at hg
      subst hg
      exact Nat.one_pos
    · by_cases heq : x0 = x1
      · rw [if_pos heq] at hg
        rcases List.mem_cons.mp hg with rfl | hg'
        · exact Nat.succ_pos c
        · exact ih g (hgr ▸ List.mem_cons_of_mem _ hg')
      · rw [if_neg heq] at hg
        rcases List.mem_cons.mp hg with rfl | hg'
        · exact Nat.one_pos
        · exact ih g (hgr ▸ hg')

lemma groupPairs_fst_chain : ∀ (l : List (ℚ × ℚ)), List.Pairwise leFst l →
    List.Chain' (· < ·) ((groupPairs l).map fun g => g.1) := by
  intro l
  induction l with
  | nil => intro _; simp [groupPairs]
  | cons p rest ih =>
    obtain ⟨x0, y0⟩ := p
    intro hpw
    rw [List.pairwise_cons] at hpw
    obtain ⟨h0, hrest⟩ := hpw
    rw [groupPairs]
    rcases hgr : groupPairs rest with _ | ⟨⟨x1, s, c⟩, gs⟩ <;> dsimp only []
    · simp
    · have hih := ih hrest
      rw [hgr] at hih
      have hx01 : x0 ≤ x1 := by
        obtain ⟨q, hq, hqe⟩ := groupPairs_fst_mem rest ⟨x1, s, c⟩ (hgr ▸ List.mem_cons_self _ _)
        have := h0 q hq
        unfold leFst at this
        rw [hqe] at this
        exact this
      by_cases heq : x0 = x1
      · rw [if_pos heq]
        exact hih
      · rw [if_neg heq]
        rw [List.map_cons]
        exact List.chain'_cons.mpr ⟨lt_of_le_of_ne hx01 heq, hih⟩

lemma chain'_zip {α β : Type} {r : α → α → Prop} {s : β → β → Prop} :
    ∀ (l1 : List α) (l2 : List β), List.Chain' r l1 → List.Chain' s l2 →
      List.Chain' (fun p q => r p.1 q.1 ∧ s p.2 q.2) (l1.zip l2) := by
  intro l1
  induction l1 with
  | nil => intro l2 _ _; simp
  | cons a l1 ih =>
    intro l2 h1 h2
    cases l2 with
    | nil => simp
    | cons b l2 =>
      cases l1 with
      | nil => simp
      | cons a' l1 =>
        cases l2 with
        | nil => simp
        | cons b' l2 =>
          rw [List.zip_cons_cons, List.zip_cons_cons, List.chain'_cons]
          rw [List.chain'_cons] at h1 h2
          refine ⟨⟨h1.1, h2.1⟩, ?_⟩
          have := ih (b' :: l2) h1.2 h2.2
          rwa [List.zip_cons_cons] at this

lemma npInterpGo_ge (x : ℚ) :
    ∀ (rest : List (ℚ × ℚ)) (k : ℚ × ℚ),
      List.Chain' (fun p q : ℚ × ℚ => p.1 < q.1 ∧ p.2 ≤ q.2) (k :: rest) →
      k.2 ≤ npInterpGo x k rest := by
  intro rest
  induction rest with
  | nil =>
    intro k _
    obtain ⟨x0, y0⟩ := k
    rw [npInterpGo]
  | cons q rest ih =>
    intro k hch
    obtain ⟨x0, y0⟩ := k
    obtain ⟨x1, y1⟩ := q
    rw [List.chain'_cons] at hch
    obtain ⟨⟨hx, hy⟩, hch'⟩ := hch
    dsimp only at hx hy
    rw [npInterpGo]
    by_cases h0 : x ≤ x0
    · rw [if_pos h0]
    · rw [if_neg h0]
      by_cases h1 : x ≤ x1
      · rw [if_pos h1]
        have hterm : 0 ≤ (y1 - y0) * (x - x0) / (x1 - x0) :=
          div_nonneg (mul_nonneg (by linarith) (by linarith)) (by linarith)
        linarith
      · rw [if_neg h1]
        exact le_trans hy (ih (x1, y1) hch')

lemma npInterpGo_mono {x x' : ℚ} (hxx : x ≤ x') :
    ∀ (rest : List (ℚ × ℚ)) (k : ℚ × ℚ),
      List.Chain' (fun p q : ℚ × ℚ => p.1 < q.1 ∧ p.2 ≤ q.2) (k :: rest) →
      npInterpGo x k rest ≤ npInterpGo x' k rest := by
  intro rest
  induction rest with
  | nil =>
    intro k _
    obtain ⟨x0, y0⟩ := k
    rw [npInterpGo, npInterpGo]
  | cons q rest ih =>
    intro k hch
    obtain ⟨x0, y0⟩ := k
    obtain ⟨x1, y1⟩ := q
    have hch2 := hch
    rw [List.chain'_cons] at hch2
    obtain ⟨⟨hx01, hy01⟩, hch'⟩ := hch2
    dsimp only at hx01 hy01
    by_cases h0 : x ≤ x0
    · have hL : npInterpGo x (x0, y0) ((x1, y1) :: rest) = y0 := by
        rw [npInterpGo, if_pos h0]
      rw [hL]
      exact npInterpGo_ge x' _ _ hch
    · by_cases h1 : x ≤ x1
      · have hL : npInterpGo x (x0, y0) ((x1, y1) :: rest) =
            y0 + (y1 - y0) * (x - x0) / (x1 - x0) := by
          rw [npInterpGo, if_neg h0, if_pos h1]
        by_cases h1' : x' ≤ x1
        · have h0' : ¬ x' ≤ x0 := by linarith
          have hR : npInterpGo x' (x0, y0) ((x1, y1) :: rest) =
              y0 + (y1 - y0) * (x' - x0) / (x1 - x0) := by
            rw [npInterpGo, if_neg h0', if_pos h1']
          rw [hL, hR]
          have hs : 0 ≤ (y1 - y0) / (x1 - x0) := div_nonneg (by linarith) (by linarith)
          rw [show (y1 - y0) * (x - x0) / (x1 - x0) = (y1 - y0) / (x1 - x0) * (x - x0) by ring,
            show (y1 - y0) * (x' - x0) / (x1 - x0) = (y1 - y0) / (x1 - x0) * (x' - x0) by ring]
          have hmul := mul_le_mul_of_nonneg_left (by linarith : x - x0 ≤ x' - x0) hs
          linarith
        · have hles : npInterpGo x (x0, y0) ((x1, y1) :: rest) ≤ y1 := by
            rw [hL]
            have hfrac : (x - x0) / (x1 - x0) ≤ 1 := by
              rw [div_le_one (by linarith : (0 : ℚ) < x1 - x0)]
              linarith
            rw [show (y1 - y0) * (x - x0) / (x1 - x0) =
                (y1 - y0) * ((x - x0) / (x1 - x0)) by ring]
            have hmul := mul_le_mul_of_nonneg_left hfrac (by linarith : (0 : ℚ) ≤ y1 - y0)
            linarith
          have hR : npInterpGo x' (x0, y0) ((x1, y1) :: rest) =
              npInterpGo x' (x1, y1) rest := by
            rw [npInterpGo, if_neg (by linarith : ¬ x' ≤ x0), if_neg h1']
          rw [hR]
          exact le_trans hles (npInterpGo_ge x' rest (x1, y1) hch')
      · have h0' : ¬ x' ≤ x0 := by linarith
        have h1'' : ¬ x' ≤ x1 := fun h => h1 (le_trans hxx h)
        have hL : npInterpGo x (x0, y0) ((x1, y1) :: rest) = npInterpGo x (x1, y1) rest := by
          rw [npInterpGo, if_neg h0, if_neg h1]
        have hR : npInterpGo x' (x0, y0) ((x1, y1) :: rest) = npInterpGo x' (x1, y1) rest := by
          rw [npInterpGo, if_neg h0', if_neg h1'']
        rw [hL, hR]
        exact ih (x1, y1) hch'

lemma fitIsotonic_ok {x y : List ℚ} {ctx : String} {lo hi : ℚ} {m : ModelMeta}
    (h : fitIsotonic x y ctx lo hi = .ok m) :
    m = ⟨MODEL_KIND_ISOTONIC, ctx,
      (groupPairs (List.insertionSort leFst (x.zip y))).map fun g => g.1,
      pavaFit ((groupPairs (List.insertionSort leFst (x.zip y))).map fun g =>
        (g.2.1, (g.2.2 : ℚ))),
      lo, hi⟩ := by
  unfold fitIsotonic at h
  by_cases hcond : x.length = 0 ∨ y.length ≠ x.length
  · rw [if_pos hcond] at h
    exact absurd h (by simp)
  · rw [if_neg hcond] at h
    exact (Except.ok.inj h).symm

lemma fitIsotonic_knots_chain {x y : List ℚ} {ctx : String} {lo hi : ℚ} {m : ModelMeta}
    (h : fitIsotonic x y ctx lo hi = .ok m) :
    List.Chain' (fun p q : ℚ × ℚ => p.1 < q.1 ∧ p.2 ≤ q.2) (m.x_knots.zip m.y_knots) := by
  rw [fitIsotonic_ok h]
  apply chain'_zip
  · exact groupPairs_fst_chain _ (List.sorted_insertionSort leFst (x.zip y))
  · apply pavaFit_sorted
    intro p hp
    rw [List.mem_map] at hp
    obtain ⟨g, hg, rfl⟩ := hp
    have hgc := groupPairs_count_pos _ g hg
    show (0 : ℚ) < (g.2.2 : ℚ)
    exact_mod_cast hgc

lemma applyModel_isotonic_mono (m : ModelMeta) (hkind : m.kind = MODEL_KIND_ISOTONIC)
    (hchain : List.Chain' (fun p q : ℚ × ℚ => p.1 < q.1 ∧ p.2 ≤ q.2)
      (m.x_knots.zip m.y_knots))
    {x1 x2 r1 r2 : ℚ} (hx : x1 ≤ x2)
    (h1 : applyModel m x1 = .ok r1) (h2 : applyModel m x2 = .ok r2) : r1 ≤ r2 := by
  unfold applyModel at h1 h2
  rcases hxk : m.x_knots with _ | ⟨k0, krest⟩ <;> rw [hxk] at h1 h2 hchain <;>
    dsimp only [] at h1 h2
  · exact absurd h1 (by simp)
  · rw [hkind, if_pos rfl] at h1 h2
    have hr1 := (Except.ok.inj h1).symm
    have hr2 := (Except.ok.inj h2).symm
    subst hr1 hr2
    have hclipmono : min (max x1 k0) (krest.getLastD k0) ≤
        min (max x2 k0) (krest.getLastD k0) :=
      min_le_min (max_le_max hx le_rfl) le_rfl
    rcases hzip : (k0 :: krest).zip m.y_knots with _ | ⟨kz, zrest⟩
    · rw [npInterp, npInterp]
    · rw [npInterp, npInterp]
      rw [hzip] at hchain
      exact npInterpGo_mono hclipmono zrest kz hchain

lemma applyModel_pchip_clipped (m : ModelMeta) (hkind : m.kind = MODEL_KIND_PCHIP)
    (hclip : m.clip_lo ≤ m.clip_hi) {x r : ℚ} (h : applyModel m x = .ok r) :
    m.clip_lo ≤ r ∧ r ≤ m.clip_hi := by
  unfold applyModel at h
  rcases hxk : m.x_knots with _ | ⟨k0, krest⟩ <;> rw [hxk] at h <;> dsimp only [] at h
  · exact absurd h (by simp)
  · rw [hkind] at h
    rw [if_neg (by decide : ¬ (MODEL_KIND_PCHIP = MODEL_KIND_ISOTONIC)), if_pos rfl] at h
    have hr := (Except.ok.inj h).symm
    subst hr
    constructor
    · exact le_min (le_max_right _ _) hclip
    · exact min_le_right _ _

/-- C4: `apply_model` on every fitted isotonic model is non-decreasing in
its input, and on every piecewise-monotone model with well-ordered clip
bounds every output lies within `[clip_lo, clip_hi]`. -/
theorem apply_model_monotone_and_clipped :
    (∀ (x y : List ℚ) (ctx : String) (lo hi : ℚ) (m : ModelMeta),
      fitIsotonic x y ctx lo hi = .ok m →
      ∀ x1 x2 r1 r2 : ℚ, x1 ≤ x2 →
        applyModel m x1 = .ok r1 → applyModel m x2 = .ok r2 → r1 ≤ r2) ∧
    (∀ (m : ModelMeta) (x r : ℚ), m.kind = MODEL_KIND_PCHIP → m.clip_lo ≤ m.clip_hi →
      applyModel m x = .ok r → m.clip_lo ≤ r ∧ r ≤ m.clip_hi) :=
  ⟨fun x y ctx lo hi m hfit _ _ _ _ hx h1 h2 =>
      applyModel_isotonic_mono m (by rw [fitIsotonic_ok hfit]) (fitIsotonic_knots_chain hfit)
        hx h1 h2,
   fun m x r hk hc h => applyModel_pchip_clipped m hk hc h⟩

/-- Witness for C4: a concrete isotonic fit is monotone at 52 vs 58, and a
concrete pchip model output at 100 lies within the default clip range. -/
theorem apply_model_monotone_and_clipped_witness :
    ((286 : ℚ) / 5 ≤ 319 / 5) ∧ ((35 : ℚ) ≤ 85 ∧ (85 : ℚ) ≤ 220) :=
  ⟨apply_model_monotone_and_clipped.1 [50, 60] [55, 66] "global" 35 220
      ⟨"isotonic", "global", [50, 60], [55, 66], 35, 220⟩
      (by with_unfolding_all decide) 52 58 (286 / 5) (319 / 5) (by norm_num)
      (by with_unfolding_all decide) (by with_unfolding_all decide),
   apply_model_monotone_and_clipped.2 ⟨"pchip", "global", [40, 60, 80], [45, 65, 85], 35, 220⟩
      100 85 rfl (by norm_num) (by with_unfolding_all decide)⟩

end ChroniaxML
